import Mathlib

/-!
Verification of the core algorithms of the obsidian-to-sql repository:
the token-aware chunker (`chunk_text_by_tokens` in
`src/tests/test_embeddings.py` / `src/tests/embeddings_test_note.py`),
the adaptive-threshold similarity search (`adaptive_search_notes` in
`src/tests/test_match_similarity.py`), and the ingestion upsert path
(`sync_notes` in `src/sync_notes.py` together with `process_title` /
`process_content` of `src/tests/test_embeddings.py`).

Modelling conventions:
* The tiktoken tokenizer is an external collaborator; it is modelled as an
  abstract pair of functions `encode`/`decode` over an arbitrary token type.
* Python ints are `Int`; Python floor division `//` is `Int.fdiv` and Python
  `%` is `Int.fmod` (both use floor semantics, matching Python exactly).
* The float comparison `last_chunk_size < target_chunk_size * 0.4` is
  modelled exactly: Python compares the int `last_chunk_size` with the
  rounded double `target_chunk_size * 0.4`, and over the relevant range that
  comparison coincides with the exact rational comparison
  `last < target * 2/5` (whenever the exact product `target * 2/5` is an
  integer `m`, the double product `target * 0.4` rounds back to exactly `m`
  for every `m` below 2^52, and when it is not an integer the rounding error
  is far too small to cross an integer).  The exact rational comparison is
  transcribed integrally as `5 * last < 2 * target`.
* Similarity scores and thresholds are `ℚ`; the synthetic pools of the spec
  use exact decimal values.
* A Python `ZeroDivisionError` (division or modulo by zero) is modelled by
  returning `none`; all other paths return `some`.
-/

/-- Abstract tokenizer collaborator (tiktoken `cl100k_base` in the source):
`encode` maps text to a token sequence, `decode` maps a token sequence back
to text.  The token type is abstract since the chunker never inspects token
values. -/
structure Tokenizer (α : Type) where
  encode : String → List α
  decode : List α → String

/-- A concrete tokenizer used to evaluate the model on explicit inputs:
tokens are characters.  It satisfies `encode (decode l) = l` for every token
list and `encode "" = []`, the round-trip properties §4.1 of the spec assumes
of the real tokenizer. -/
def charTokenizer : Tokenizer Char :=
  { encode := String.toList, decode := List.asString }

/-- Fuel-indexed walk of the token list in consecutive windows of `step`
tokens, mirroring `for i in range(0, total_tokens, chunk_size)` with the
slice `tokens[i:min(i+chunk_size, total_tokens)]`.  The fuel is set to the
list length by `windows`; since each step drops at least one element when
`1 ≤ step`, that fuel is never exhausted. -/
def windowsGo {α : Type} (step : Nat) : Nat → List α → List (List α)
  | _, [] => []
  | 0, _ :: _ => []
  | Nat.succ fuel, x :: xs => (x :: xs).take step :: windowsGo step fuel ((x :: xs).drop step)

/-- The list of consecutive non-overlapping windows of `step` tokens (the
final window taking whatever remains). -/
def windows {α : Type} (step : Nat) (l : List α) : List (List α) :=
  windowsGo step l.length l

/-- The chunk-size computation of `chunk_text_by_tokens` (the block from
`last_chunk_size = total_tokens % target_chunk_size` to the `else` assigning
`chunk_size = target_chunk_size`): when the remainder is non-zero and below
40% of the target, redistribute with
`n_chunks = max(1, total_tokens // target_chunk_size)` and
`chunk_size = total_tokens // n_chunks`; otherwise keep the target.  The
condition `5 * last < 2 * target` is the exact transcription of the Python
float comparison `last_chunk_size < target_chunk_size * 0.4` (see the header
comment). -/
def redistributedChunkSize (total_tokens target_chunk_size : Int) : Int :=
  if 0 < Int.fmod total_tokens target_chunk_size ∧
      5 * Int.fmod total_tokens target_chunk_size < 2 * target_chunk_size then
    Int.fdiv total_tokens (max 1 (Int.fdiv total_tokens target_chunk_size))
  else
    target_chunk_size

/-- Shallow embedding of `chunk_text_by_tokens(text, target_chunk_size,
tokenizer)` from `src/tests/test_embeddings.py` (the copy in
`src/tests/embeddings_test_note.py` is identical).  Returns `none` exactly
where Python raises: the ceiling division
`(total_tokens + target_chunk_size - 1) // target_chunk_size` raises
`ZeroDivisionError` when `target_chunk_size = 0` (reached only past the two
short-circuits; the ceiling value itself is dead, being either overwritten
inside the redistribution branch or unused), and `range(0, total_tokens, 0)`
would raise `ValueError` (that branch is unreachable, see the `chunk_size`
positivity lemma below).  A negative `chunk_size` makes
`range(0, total_tokens, chunk_size)` empty, hence `some []`. -/
def chunk_text_by_tokens {α : Type} (tok : Tokenizer α) (text : String)
    (target_chunk_size : Int) : Option (List String) :=
  if text = "" then
    some []
  else
    let tokens := tok.encode text
    let total_tokens : Int := tokens.length
    if total_tokens ≤ target_chunk_size then
      some [text]
    else if target_chunk_size = 0 then
      none
    else
      let chunk_size := redistributedChunkSize total_tokens target_chunk_size
      if chunk_size = 0 then
        none
      else if chunk_size < 0 then
        some []
      else
        some ((windows chunk_size.toNat tokens).map tok.decode)

/-- A search candidate row of `adaptive_search_notes` in
`src/tests/test_match_similarity.py`: one row of the top-50 candidate query,
projected to an identifier and the similarity score `1 - distance` computed
in SQL.  The other columns (note id, raw content, section type/order,
distance) travel along with the row and play no role in the thresholding
logic, so the identifier stands for them. -/
structure Candidate where
  section_id : Nat
  similarity : ℚ
deriving DecidableEq

/-- The return dictionary of `adaptive_search_notes`: `results`,
`final_threshold`, and the `attempted_thresholds` recorded in `debug_info`
together with `total_candidates_checked`.  The `all_candidates` debug field
is the input pool itself and is omitted. -/
structure SearchResult where
  results : List Candidate
  final_threshold : ℚ
  attempted_thresholds : List ℚ
  total_candidates_checked : Nat
deriving DecidableEq

/-- The filter step of the loop body:
`[r for r in all_candidates if r["similarity"] >= current_threshold]`. -/
def thresholdFilter (pool : List Candidate) (t : ℚ) : List Candidate :=
  pool.filter (fun r => t ≤ r.similarity)

/-- The `while current_threshold >= min_threshold` loop of
`adaptive_search_notes`, as a fuel-indexed recursion: the triple returned is
`(final_results, current_threshold, attempted_thresholds)`.  The fuel-0
branch returns exactly what the guard exit returns; `searchFuel` below gives
enough fuel that, for a positive `threshold_step`, the fuel runs out only at
a `current_threshold` already strictly below `min_threshold`, so the model
coincides with the unbounded Python loop.  (For `threshold_step ≤ 0` the
Python loop need not terminate; all claims assume a positive step.) -/
def searchGo (pool : List Candidate) (min_results max_results : Nat)
    (min_threshold threshold_step : ℚ) : Nat → ℚ → List Candidate × ℚ × List ℚ
  | 0, cur => ([], cur, [])
  | Nat.succ fuel, cur =>
    if cur < min_threshold then
      ([], cur, [])
    else if min_results ≤ (thresholdFilter pool cur).length then
      ((thresholdFilter pool cur).take max_results, cur, [cur])
    else
      let next := searchGo pool min_results max_results min_threshold threshold_step fuel
        (cur - threshold_step)
      (next.1, next.2.1, cur :: next.2.2)

/-- An upper bound on the number of iterations of the threshold loop: the
thresholds attempted are `initial - k * step` for `k = 0, 1, ...` while the
value is still `≥ min_threshold`, i.e. at most
`⌊(initial − min) / step⌋ + 1` of them when the step is positive. -/
def searchFuel (initial_threshold min_threshold threshold_step : ℚ) : Nat :=
  (⌊(initial_threshold - min_threshold) / threshold_step⌋ + 1).toNat

/-- Shallow embedding of `adaptive_search_notes` from
`src/tests/test_match_similarity.py`, starting after the candidate query:
the top-50 pool fetched once from the database is the `pool` parameter (the
embedding-generation and SQL steps are external collaborators).  The loop
lowers `current_threshold` from `initial_threshold` by `threshold_step`
while at least `min_results` candidates do not pass the filter; on success
it truncates to `max_results`.  After the loop, the source applies the
fallback `if not final_results and all_candidates: final_results =
all_candidates[:max_results]`. -/
def adaptive_search_notes (pool : List Candidate)
    (initial_threshold min_threshold threshold_step : ℚ)
    (min_results max_results : Nat) : SearchResult :=
  let r := searchGo pool min_results max_results min_threshold threshold_step
    (searchFuel initial_threshold min_threshold threshold_step) initial_threshold
  let final_results := if r.1 = [] ∧ pool ≠ [] then pool.take max_results else r.1
  { results := final_results
    final_threshold := r.2.1
    attempted_thresholds := r.2.2
    total_candidates_checked := pool.length }

/-- The synthetic candidate pool of the spec's testable properties: 10
candidates with similarities 0.95, 0.90, ..., 0.50 in descending order. -/
def pool10 : List Candidate :=
  [⟨1, 95/100⟩, ⟨2, 90/100⟩, ⟨3, 85/100⟩, ⟨4, 80/100⟩, ⟨5, 75/100⟩,
   ⟨6, 70/100⟩, ⟨7, 65/100⟩, ⟨8, 60/100⟩, ⟨9, 55/100⟩, ⟨10, 50/100⟩]

/-- The two-candidate pool of the spec's fallback property. -/
def pool2 : List Candidate :=
  [⟨1, 95/100⟩, ⟨2, 90/100⟩]

/-- A row of `local.notes` as written by `sync_notes` in
`src/sync_notes.py`.  `id` models the serial primary key (assigned as the
current table size on insert).  The timestamp columns (`file_created_at`,
`file_modified_at`, `sync_modified_at`) require a wall clock, are not
consulted by any logic in the source, and are omitted;
`title`/`properties`/`path_metadata` are computed by `extract_title`,
`extract_properties` and `create_path_metadata` — deterministic functions of
the file path and content, treated as collaborator inputs here. -/
structure NoteRow where
  id : Nat
  file_path : String
  title : String
  content : String
  properties : Option String
  path_metadata : String
deriving DecidableEq

/-- A row of `local.note_embeddings` as written by `process_title` /
`process_content` of `src/tests/test_embeddings.py`.  The embedding vector
column is produced by the opaque external embedding client and is determined
by `raw_content`; it is omitted from the row (no logic in the source reads
it back during ingestion). -/
structure ChunkRow where
  id : Nat
  note_id : Nat
  type : String
  raw_content : String
  section_order : Nat
  word_count : Nat
  character_count : Nat
  token_count : Nat
deriving DecidableEq

/-- The two relations the ingestion path writes. -/
structure DbState where
  notes : List NoteRow
  note_embeddings : List ChunkRow
deriving DecidableEq

def emptyDb : DbState := { notes := [], note_embeddings := [] }

/-- `count_words` of `src/tests/test_embeddings.py`: split on whitespace
runs and count the non-empty pieces. -/
def count_words (text : String) : Nat :=
  ((text.split (fun c => c.isWhitespace)).filter (fun w => w ≠ "")).length

/-- `count_characters` of `src/tests/test_embeddings.py`. -/
def count_characters (text : String) : Nat :=
  text.length

/-- `count_tokens` of `src/tests/test_embeddings.py`: 0 for empty text,
else the length of the encoded token sequence. -/
def count_tokens {α : Type} (tok : Tokenizer α) (text : String) : Nat :=
  if text = "" then 0 else (tok.encode text).length

/-- `generate_embedding` of `src/tests/test_embeddings.py`: `None` on empty
text, otherwise the vector from the opaque embedding client `embedFn`. -/
def generate_embedding (embedFn : String → List ℚ) (text : String) : Option (List ℚ) :=
  if text = "" then none else some (embedFn text)

/-- The upsert of `sync_notes` (`INSERT INTO local.notes ... ON CONFLICT
(file_path) DO UPDATE SET title, content, properties, path_metadata, ...`):
a row with the same `file_path` is updated in place (its serial `id` kept),
otherwise a fresh row is appended. -/
def upsertNote (notes : List NoteRow) (file_path title content : String)
    (properties : Option String) (path_metadata : String) : List NoteRow :=
  if notes.any (fun r => r.file_path = file_path) then
    notes.map (fun r =>
      if r.file_path = file_path then
        { r with
          title := title
          content := content
          properties := properties
          path_metadata := path_metadata }
      else r)
  else
    notes ++ [{ id := notes.length
                file_path := file_path
                title := title
                content := content
                properties := properties
                path_metadata := path_metadata }]

/-- One `INSERT INTO local.note_embeddings (...) VALUES (...)`: a plain
append with a fresh serial id — the source has no conflict clause and no
delete for this table. -/
def insertChunkRow (st : DbState) (note_id : Nat) (sectionType raw_content : String)
    (section_order word_count character_count token_count : Nat) : DbState :=
  { st with note_embeddings := st.note_embeddings ++
      [{ id := st.note_embeddings.length
         note_id := note_id
         type := sectionType
         raw_content := raw_content
         section_order := section_order
         word_count := word_count
         character_count := character_count
         token_count := token_count }] }

/-- `process_title` of `src/tests/test_embeddings.py`: skip an empty title,
otherwise insert one `title` row with `section_order = 0` (insertion is
skipped when the embedding client returns nothing, which for the modelled
client happens exactly on empty text). -/
def process_title {α : Type} (tok : Tokenizer α) (embedFn : String → List ℚ)
    (st : DbState) (note_id : Nat) (title : String) : DbState :=
  if title = "" then st
  else
    match generate_embedding embedFn title with
    | none => st
    | some _ => insertChunkRow st note_id "title" title 0
        (count_words title) (count_characters title) (count_tokens tok title)

/-- The `for i, chunk in enumerate(chunks)` loop of `process_content`:
each chunk with a successful embedding becomes a `content` row with
`section_order = i + 1`; a failed embedding is skipped (`continue`) but the
index still advances. -/
def processContentChunks {α : Type} (tok : Tokenizer α) (embedFn : String → List ℚ)
    (note_id : Nat) : DbState → Nat → List String → DbState
  | st, _, [] => st
  | st, i, chunk :: rest =>
    match generate_embedding embedFn chunk with
    | none => processContentChunks tok embedFn note_id st (i + 1) rest
    | some _ =>
      processContentChunks tok embedFn note_id
        (insertChunkRow st note_id "content" chunk (i + 1)
          (count_words chunk) (count_characters chunk) (count_tokens tok chunk))
        (i + 1) rest

/-- `process_content` of `src/tests/test_embeddings.py`: skip empty content,
chunk with the default `target_chunk_size = 1000`, then insert the chunk
rows in loop order.  The `none` arm of the chunker is unreachable at target
1000 > 0. -/
def process_content {α : Type} (tok : Tokenizer α) (embedFn : String → List ℚ)
    (st : DbState) (note_id : Nat) (content : String) : DbState :=
  if content = "" then st
  else
    match chunk_text_by_tokens tok content 1000 with
    | none => st
    | some chunks => processContentChunks tok embedFn note_id st 0 chunks

/-- One document's ingestion: the `sync_notes` upsert for the file followed
by `process_title` and `process_content` of `src/tests/test_embeddings.py`
for the synced note (looked up by its path, as `get_random_note` returns the
stored row id).  Title, properties and path metadata are deterministic
functions of path and content computed by collaborators, so an unchanged
document is re-ingested with identical arguments. -/
def ingestDocument {α : Type} (tok : Tokenizer α) (embedFn : String → List ℚ)
    (st : DbState) (file_path title content : String)
    (properties : Option String) (path_metadata : String) : DbState :=
  let notes := upsertNote st.notes file_path title content properties path_metadata
  let st1 : DbState := { st with notes := notes }
  match notes.find? (fun r => r.file_path = file_path) with
  | none => st1
  | some row =>
    let st2 := process_title tok embedFn st1 row.id title
    process_content tok embedFn st2 row.id content

/-- Number of `content` rows one document's content contributes: one per
chunk whose embedding succeeds (non-empty chunk text), independent of the
database state the rows are appended to. -/
def contentRowCount {α : Type} (tok : Tokenizer α) (content : String) : Nat :=
  if content = "" then 0
  else
    match chunk_text_by_tokens tok content 1000 with
    | none => 0
    | some chunks => (chunks.filter (fun c => c ≠ "")).length

theorem windowsGo_flatten {α : Type} (step : Nat) (hstep : 1 ≤ step) :
    ∀ (fuel : Nat) (l : List α), l.length ≤ fuel → (windowsGo step fuel l).flatten = l := by
  intro fuel
  induction fuel with
  | zero =>
    intro l hl
    cases l with
    | nil => rfl
    | cons x xs => simp at hl
  | succ n ih =>
    intro l hl
    cases l with
    | nil => rfl
    | cons x xs =>
      rw [windowsGo, List.flatten_cons, ih ((x :: xs).drop step) (by simp at hl ⊢; omega),
        List.take_append_drop]

/-- Concatenating the windows of a token list gives back the token list. -/
theorem windows_flatten {α : Type} (step : Nat) (hstep : 1 ≤ step) (l : List α) :
    (windows step l).flatten = l :=
  windowsGo_flatten step hstep l.length l le_rfl

theorem windows_ne_nil {α : Type} (step : Nat) (l : List α) (h : l ≠ []) :
    windows step l ≠ [] := by
  cases l with
  | nil => exact absurd rfl h
  | cons x xs => simp [windows, windowsGo]

/-- Positivity of the chosen chunk size in the non-degenerate main branch:
with a positive target strictly below the total, both the redistributed size
`total // max(1, total // target)` and the unredistributed size `target` are
at least 1.  This is why the `range` step in the source is never zero. -/
theorem redistributedChunkSize_pos (total_tokens target_chunk_size : Int)
    (hpos : 0 < target_chunk_size) (hlt : target_chunk_size < total_tokens) :
    0 < redistributedChunkSize total_tokens target_chunk_size := by
  rw [redistributedChunkSize]
  split_ifs with h
  · have htot : (0 : Int) < total_tokens := lt_trans hpos hlt
    have hone : (1 : Int) ≤ max 1 (Int.fdiv total_tokens target_chunk_size) := le_max_left _ _
    have hupper : max 1 (Int.fdiv total_tokens target_chunk_size) ≤ total_tokens := by
      have hfd : Int.fdiv total_tokens target_chunk_size = total_tokens / target_chunk_size :=
        Int.fdiv_eq_ediv _ (le_of_lt hpos)
      have hds : total_tokens / target_chunk_size ≤ total_tokens :=
        Int.ediv_le_self _ (le_of_lt htot)
      have h1t : (1 : Int) ≤ total_tokens := htot
      rw [hfd]
      exact max_le h1t hds
    have hfd2 : Int.fdiv total_tokens (max 1 (Int.fdiv total_tokens target_chunk_size)) =
        total_tokens / max 1 (Int.fdiv total_tokens target_chunk_size) :=
      Int.fdiv_eq_ediv _ (le_trans zero_le_one hone)
    rw [hfd2]
    have hb : (0 : Int) < max 1 (Int.fdiv total_tokens target_chunk_size) :=
      lt_of_lt_of_le zero_lt_one hone
    have h1 : (1 : Int) ≤ total_tokens / max 1 (Int.fdiv total_tokens target_chunk_size) :=
      (Int.le_ediv_iff_mul_le hb).mpr (by rw [one_mul]; exact hupper)
    exact lt_of_lt_of_le zero_lt_one h1
  · exact hpos

/-- C3: for every round-trip-stable tokenizer, every text and every positive
`target_chunk_size`, the chunker succeeds and concatenating the token
sequences of the returned chunks, in order, is exactly the token sequence of
the input text: no token is dropped, duplicated or reordered. -/
theorem chunker_concat_preserves_tokens {α : Type} (tok : Tokenizer α)
    (hempty : tok.encode "" = [])
    (hrt : ∀ l : List α, tok.encode (tok.decode l) = l)
    (text : String) (target_chunk_size : Int) (hpos : 0 < target_chunk_size) :
    (chunk_text_by_tokens tok text target_chunk_size).map
      (fun cs => (cs.map tok.encode).flatten) = some (tok.encode text) := by
  by_cases h0 : text = ""
  · simp [chunk_text_by_tokens, h0, hempty]
  · by_cases h1 : ((tok.encode text).length : Int) ≤ target_chunk_size
    · simp [chunk_text_by_tokens, h0, h1]
    · have hlt : target_chunk_size < ((tok.encode text).length : Int) := lt_of_not_le h1
      have hcs := redistributedChunkSize_pos ((tok.encode text).length : Int)
        target_chunk_size hpos hlt
      have hne : target_chunk_size ≠ 0 := ne_of_gt hpos
      rw [chunk_text_by_tokens]
      rw [if_neg h0]
      simp only [if_neg h1, if_neg hne, if_neg (ne_of_gt hcs), if_neg (not_lt.mpr (le_of_lt hcs)),
        Option.map_some']
      congr 1
      rw [List.map_map]
      have hmap : (windows (redistributedChunkSize ((tok.encode text).length : Int)
          target_chunk_size).toNat (tok.encode text)).map (tok.encode ∘ tok.decode) =
          windows (redistributedChunkSize ((tok.encode text).length : Int)
          target_chunk_size).toNat (tok.encode text) :=
        List.map_id'' (fun x => hrt x) _
      rw [hmap]
      exact windows_flatten _ (by omega) _

theorem chunker_concat_preserves_tokens_witness :
    (0 : Int) < 3 ∧
    (chunk_text_by_tokens charTokenizer "abcdefg" 3).map
      (fun cs => (cs.map charTokenizer.encode).flatten) =
      some (charTokenizer.encode "abcdefg") :=
  ⟨by decide, chunker_concat_preserves_tokens charTokenizer rfl
    (fun l => List.toList_asString l) "abcdefg" 3 (by decide)⟩

/-- C8: for every positive `target_chunk_size`, the chunker returns the empty
chunk list exactly when the text is empty, and a non-empty text of at most
`target_chunk_size` tokens (in particular of exactly `target_chunk_size`
tokens) yields exactly one chunk that is the original input string, with no
zero-length trailing chunk. -/
theorem chunker_boundary_single_chunk {α : Type} (tok : Tokenizer α) (text : String)
    (target_chunk_size : Int) (hpos : 0 < target_chunk_size) :
    (chunk_text_by_tokens tok text target_chunk_size = some [] ↔ text = "") ∧
    (text ≠ "" → ((tok.encode text).length : Int) ≤ target_chunk_size →
      chunk_text_by_tokens tok text target_chunk_size = some [text]) := by
  constructor
  · constructor
    · intro h
      by_contra h0
      by_cases h1 : ((tok.encode text).length : Int) ≤ target_chunk_size
      · rw [chunk_text_by_tokens] at h
        simp only [if_neg h0, if_pos h1] at h
        exact List.cons_ne_nil _ _ (Option.some_injective _ h)
      · have hlt := lt_of_not_le h1
        have hcs := redistributedChunkSize_pos _ _ hpos hlt
        have hne : target_chunk_size ≠ 0 := ne_of_gt hpos
        rw [chunk_text_by_tokens] at h
        simp only [if_neg h0, if_neg h1, if_neg hne, if_neg (ne_of_gt hcs),
          if_neg (not_lt.mpr (le_of_lt hcs))] at h
        have hmap := Option.some_injective _ h
        have htok : tok.encode text ≠ [] := by
          intro hnil
          rw [hnil] at hlt
          simp at hlt
          omega
        exact windows_ne_nil _ _ htok (List.map_eq_nil_iff.mp hmap)
    · intro h
      simp [chunk_text_by_tokens, h]
  · intro h0 h1
    simp [chunk_text_by_tokens, h0, h1]

theorem chunker_boundary_single_chunk_witness :
    (0 : Int) < 2 ∧ chunk_text_by_tokens charTokenizer "ab" 2 = some ["ab"] :=
  ⟨by decide, (chunker_boundary_single_chunk charTokenizer "ab" 2 (by decide)).2
    (by decide) (by decide)⟩

/-- C1 (evidence for the code bug): with `target_chunk_size = 3` and a text
of `2 * 3 + 1 = 7` tokens, the redistribution condition of the source does
hold (remainder 1 is non-zero and below 40% of the target), the recomputed
`n_chunks` is 2 and `chunk_size = 7 // 2 = 3`, yet the emitted chunks are
the three-chunk split of token sizes `[3, 3, 1]` — exactly the degenerate
split the function's own docstring ("Avoids creating very small chunks at
the end") and the spec say redistribution prevents.  The flooring of
`chunk_size = total_tokens // n_chunks` leaves a 1-token tail whenever
`n_chunks` does not divide `total_tokens`. -/
theorem chunk_redistribution_emits_small_tail :
    (0 < Int.fmod 7 3 ∧ 5 * Int.fmod 7 3 < 2 * 3) ∧
    redistributedChunkSize 7 3 = 3 ∧
    chunk_text_by_tokens charTokenizer "abcdefg" 3 = some ["abc", "def", "g"] := by
  decide

/-- C7 (counterexample): `target_chunk_size = 0` with a text of at least one
token reaches the ceiling division `(total_tokens + target_chunk_size - 1)
// target_chunk_size` and raises `ZeroDivisionError` (modelled as `none`),
contradicting the claim that every `target_size ≤ 0` is handled without a
division by zero. -/
theorem chunker_target_zero_raises : chunk_text_by_tokens charTokenizer "a" 0 = none := by
  decide

/-- C7 (amended): a strictly negative `target_chunk_size` is handled without
a division by zero (the chunker returns an empty chunk list, since Python's
floor division and modulo accept negative divisors and the final `range`
with a negative step is empty); `target_chunk_size = 0` raises
`ZeroDivisionError` exactly when the text is non-empty and tokenizes to at
least one token; and a text of exactly `target_chunk_size` tokens (positive
target) yields the single chunk `[text]` with no extra empty chunk. -/
theorem chunker_nonpositive_target {α : Type} (tok : Tokenizer α) (text : String)
    (target_chunk_size : Int) :
    (target_chunk_size < 0 → chunk_text_by_tokens tok text target_chunk_size = some []) ∧
    (target_chunk_size = 0 →
      (chunk_text_by_tokens tok text target_chunk_size = none ↔
        (text ≠ "" ∧ tok.encode text ≠ []))) ∧
    (0 < target_chunk_size → text ≠ "" →
      ((tok.encode text).length : Int) = target_chunk_size →
      chunk_text_by_tokens tok text target_chunk_size = some [text]) := by
  refine ⟨?_, ?_, ?_⟩
  · intro hneg
    by_cases h0 : text = ""
    · simp [chunk_text_by_tokens, h0]
    · have hlen : (0 : Int) ≤ ((tok.encode text).length : Int) := Int.natCast_nonneg _
      have h1 : ¬ ((tok.encode text).length : Int) ≤ target_chunk_size := by omega
      have hne : target_chunk_size ≠ 0 := ne_of_lt hneg
      have hcs : redistributedChunkSize ((tok.encode text).length : Int) target_chunk_size =
          target_chunk_size := by
        rw [redistributedChunkSize, if_neg]
        rintro ⟨hp, h5⟩
        omega
      rw [chunk_text_by_tokens]
      simp only [if_neg h0, if_neg h1, if_neg hne, hcs, if_neg hne, if_pos hneg]
  · intro hz
    subst hz
    by_cases h0 : text = ""
    · simp [chunk_text_by_tokens, h0]
    · by_cases henc : tok.encode text = []
      · have h1 : ((tok.encode text).length : Int) ≤ 0 := by simp [henc]
        simp [chunk_text_by_tokens, h0, h1, henc]
      · have hpos : 0 < (tok.encode text).length := List.length_pos.mpr henc
        have h1 : ¬ ((tok.encode text).length : Int) ≤ 0 := by
          simp only [not_le]
          exact_mod_cast hpos
        rw [chunk_text_by_tokens]
        simp [if_neg h0, if_neg h1, h0, henc]
  · intro hpos h0 h1
    simp [chunk_text_by_tokens, h0, le_of_eq h1]

theorem chunker_nonpositive_target_witness :
    chunk_text_by_tokens charTokenizer "ab" (-1) = some [] ∧
    (chunk_text_by_tokens charTokenizer "a" 0 = none ↔
      ("a" ≠ "" ∧ charTokenizer.encode "a" ≠ [])) ∧
    chunk_text_by_tokens charTokenizer "ab" 2 = some ["ab"] :=
  ⟨(chunker_nonpositive_target charTokenizer "ab" (-1)).1 (by decide),
   (chunker_nonpositive_target charTokenizer "a" 0).2.1 rfl,
   (chunker_nonpositive_target charTokenizer "ab" 2).2.2 (by decide) (by decide) (by decide)⟩

theorem searchGo_succ (pool : List Candidate) (mr xr : Nat) (mt st : ℚ)
    (fuel : Nat) (cur : ℚ) :
    searchGo pool mr xr mt st (fuel + 1) cur =
      if cur < mt then ([], cur, [])
      else if mr ≤ (thresholdFilter pool cur).length then
        ((thresholdFilter pool cur).take xr, cur, [cur])
      else
        ((searchGo pool mr xr mt st fuel (cur - st)).1,
          (searchGo pool mr xr mt st fuel (cur - st)).2.1,
          cur :: (searchGo pool mr xr mt st fuel (cur - st)).2.2) := rfl

theorem sub_zero_mul (cur st : ℚ) : cur - (0 : ℕ) * st = cur := by push_cast; ring

theorem sub_succ_mul (cur st : ℚ) (j : ℕ) :
    cur - st - (j : ℕ) * st = cur - ((j + 1 : ℕ) : ℚ) * st := by push_cast; ring

theorem attempted_shift (cur st : ℚ) (k : Nat) :
    cur :: (List.range k).map (fun j : ℕ => cur - st - (j : ℚ) * st) =
      (List.range (k + 1)).map (fun j : ℕ => cur - (j : ℚ) * st) := by
  rw [List.range_succ_eq_map, List.map_cons, List.map_map]
  congr 1
  · rw [Nat.cast_zero, zero_mul, sub_zero]
  · refine List.map_congr_left ?_
    intro j _
    show cur - st - (j : ℚ) * st = cur - ((j + 1 : ℕ) : ℚ) * st
    push_cast
    ring

/-- If the first `k` thresholds fail, the `k`-th threshold is still in range
and passes the filter with at least `min_results` candidates, and there is
enough fuel, then the loop stops exactly at threshold `cur - k * step` and
returns the truncated filtered list. -/
theorem searchGo_first_hit (pool : List Candidate) (mr xr : Nat) (mt st : ℚ) :
    ∀ (k fuel : Nat) (cur : ℚ), k < fuel → 0 < st →
      (∀ j : Nat, j < k → (thresholdFilter pool (cur - j * st)).length < mr) →
      mt ≤ cur - k * st →
      mr ≤ (thresholdFilter pool (cur - k * st)).length →
      searchGo pool mr xr mt st fuel cur =
        ((thresholdFilter pool (cur - k * st)).take xr, cur - k * st,
          (List.range (k + 1)).map (fun j : ℕ => cur - (j : ℚ) * st)) := by
  intro k
  induction k with
  | zero =>
    intro fuel cur hk hst hfail hmt hcount
    obtain ⟨n, rfl⟩ : ∃ n, fuel = n + 1 := ⟨fuel - 1, by omega⟩
    rw [sub_zero_mul] at hmt hcount
    rw [searchGo_succ, if_neg (not_lt.mpr hmt), if_pos hcount]
    rw [show List.range 1 = [0] from rfl]
    simp
  | succ k ih =>
    intro fuel cur hk hst hfail hmt hcount
    obtain ⟨n, rfl⟩ : ∃ n, fuel = n + 1 := ⟨fuel - 1, by omega⟩
    have hcur_ge : mt ≤ cur := by
      refine le_trans hmt (sub_le_self cur ?_)
      exact mul_nonneg (Nat.cast_nonneg _) (le_of_lt hst)
    have hmiss : ¬ mr ≤ (thresholdFilter pool cur).length := by
      have h := hfail 0 (Nat.succ_pos k)
      rw [sub_zero_mul] at h
      omega
    rw [searchGo_succ, if_neg (not_lt.mpr hcur_ge), if_neg hmiss]
    rw [ih n (cur - st) (by omega) hst
      (fun j hj => by rw [sub_succ_mul]; exact hfail (j + 1) (by omega))
      (by rw [sub_succ_mul]; exact hmt)
      (by rw [sub_succ_mul]; exact hcount)]
    rw [Prod.mk.injEq, Prod.mk.injEq]
    refine ⟨by rw [sub_succ_mul], by rw [sub_succ_mul], ?_⟩
    rw [attempted_shift]

/-- If every threshold the fuel allows fails to reach `min_results`, and all
of them are still `≥ min_threshold`, the loop runs the fuel down and exits
with `final_results = []` and `current_threshold` lowered `fuel` times. -/
theorem searchGo_exhaust (pool : List Candidate) (mr xr : Nat) (mt st : ℚ) :
    ∀ (fuel : Nat) (cur : ℚ),
      (∀ j : Nat, j < fuel → (thresholdFilter pool (cur - j * st)).length < mr) →
      (∀ j : Nat, j < fuel → mt ≤ cur - j * st) →
      searchGo pool mr xr mt st fuel cur =
        ([], cur - fuel * st, (List.range fuel).map (fun j : ℕ => cur - (j : ℚ) * st)) := by
  intro fuel
  induction fuel with
  | zero =>
    intro cur _ _
    simp [searchGo]
  | succ n ih =>
    intro cur hfail hge
    have hmiss : ¬ mr ≤ (thresholdFilter pool cur).length := by
      have h := hfail 0 (Nat.succ_pos n)
      rw [sub_zero_mul] at h
      omega
    have hcur : mt ≤ cur := by
      have h := hge 0 (Nat.succ_pos n)
      rwa [sub_zero_mul] at h
    rw [searchGo_succ, if_neg (not_lt.mpr hcur), if_neg hmiss]
    rw [ih (cur - st) (fun j hj => by rw [sub_succ_mul]; exact hfail (j + 1) (by omega))
      (fun j hj => by rw [sub_succ_mul]; exact hge (j + 1) (by omega))]
    rw [Prod.mk.injEq, Prod.mk.injEq]
    refine ⟨rfl, by rw [sub_succ_mul], ?_⟩
    rw [attempted_shift]

/-- With an empty pool every filter pass is empty, so the loop can never
contribute candidates: `final_results` is `[]` on every path. -/
theorem searchGo_nil_pool (mr xr : Nat) (mt st : ℚ) :
    ∀ (fuel : Nat) (cur : ℚ), (searchGo [] mr xr mt st fuel cur).1 = [] := by
  intro fuel
  induction fuel with
  | zero =>
    intro cur
    rfl
  | succ n ih =>
    intro cur
    rw [searchGo_succ]
    split_ifs with h1 h2
    · rfl
    · simp [thresholdFilter]
    · exact ih (cur - st)

/-- If the first `k` thresholds fail and threshold `init - k * step` is in
range and passes, the search returns the filtered pool truncated to
`max_results` at `final_threshold = init - k * step` (the fuel of
`adaptive_search_notes` always covers such a `k`, and the fallback does not
fire because the hit is non-empty). -/
theorem adaptive_search_hits (pool : List Candidate) (init mt st : ℚ)
    (mr xr k : Nat) (hst : 0 < st) (hmr : 1 ≤ mr) (hxr : mr ≤ xr)
    (hfail : ∀ j : Nat, j < k → (thresholdFilter pool (init - j * st)).length < mr)
    (hk : mt ≤ init - k * st)
    (hcount : mr ≤ (thresholdFilter pool (init - k * st)).length) :
    (adaptive_search_notes pool init mt st mr xr).results =
        (thresholdFilter pool (init - k * st)).take xr ∧
    (adaptive_search_notes pool init mt st mr xr).final_threshold = init - k * st := by
  have hfuel : k < searchFuel init mt st := by
    have h1 : (k : ℚ) * st ≤ init - mt := by linarith
    have h2 : (k : ℚ) ≤ (init - mt) / st := (le_div_iff₀ hst).mpr h1
    have h3 : (k : ℤ) ≤ ⌊(init - mt) / st⌋ := Int.le_floor.mpr (by exact_mod_cast h2)
    exact Int.lt_toNat.mpr (by omega)
  have hgo := searchGo_first_hit pool mr xr mt st k (searchFuel init mt st) init
    hfuel hst hfail hk hcount
  have hres_ne : (thresholdFilter pool (init - k * st)).take xr ≠ [] := by
    intro hnil
    have hlen := congrArg List.length hnil
    rw [List.length_take] at hlen
    simp only [List.length_nil] at hlen
    omega
  constructor
  · show (if (searchGo pool mr xr mt st (searchFuel init mt st) init).1 = [] ∧ pool ≠ []
        then pool.take xr else (searchGo pool mr xr mt st (searchFuel init mt st) init).1) = _
    rw [hgo]
    rw [if_neg]
    rintro ⟨h1, _⟩
    exact hres_ne h1
  · show (searchGo pool mr xr mt st (searchFuel init mt st) init).2.1 = _
    rw [hgo]

/-- If every threshold within fuel range fails to reach `min_results`, the
loop exhausts: the final threshold is the first value strictly below
`min_threshold`, and the results are the fallback (`pool[:max_results]`, or
empty for an empty pool). -/
theorem adaptive_search_exhausts (pool : List Candidate) (init mt st : ℚ)
    (mr xr : Nat) (hst : 0 < st) (hmt : mt ≤ init)
    (hfail : ∀ j : Nat, j < searchFuel init mt st →
      (thresholdFilter pool (init - j * st)).length < mr) :
    (pool = [] → (adaptive_search_notes pool init mt st mr xr).results = []) ∧
    (pool ≠ [] → (adaptive_search_notes pool init mt st mr xr).results = pool.take xr) ∧
    (adaptive_search_notes pool init mt st mr xr).final_threshold =
        init - (searchFuel init mt st : ℚ) * st ∧
    (adaptive_search_notes pool init mt st mr xr).final_threshold < mt := by
  have hge : ∀ j : Nat, j < searchFuel init mt st → mt ≤ init - j * st := by
    intro j hj
    have h1 : (j : ℤ) < ⌊(init - mt) / st⌋ + 1 := Int.lt_toNat.mp hj
    have h2 : (j : ℤ) ≤ ⌊(init - mt) / st⌋ := by omega
    have h3 : (j : ℚ) ≤ (init - mt) / st := by exact_mod_cast Int.le_floor.mp h2
    have h4 : (j : ℚ) * st ≤ init - mt := (le_div_iff₀ hst).mp h3
    linarith
  have hgo := searchGo_exhaust pool mr xr mt st (searchFuel init mt st) init hfail hge
  have hm0 : 0 ≤ ⌊(init - mt) / st⌋ := by
    rw [Int.floor_nonneg]
    exact div_nonneg (by linarith) (le_of_lt hst)
  have hfq : ((searchFuel init mt st : ℕ) : ℚ) = ((⌊(init - mt) / st⌋ : ℤ) : ℚ) + 1 := by
    rw [searchFuel]
    rw [show ((⌊(init - mt) / st⌋ + 1).toNat : ℚ) = (((⌊(init - mt) / st⌋ + 1).toNat : ℤ) : ℚ)
      from by push_cast; ring]
    rw [Int.toNat_of_nonneg (by omega)]
    push_cast
    ring
  have hlast : init - (searchFuel init mt st : ℚ) * st < mt := by
    have hc := Int.lt_floor_add_one ((init - mt) / st)
    have hc2 : init - mt < ((⌊(init - mt) / st⌋ : ℤ) + 1 : ℚ) * st := by
      have := (div_lt_iff₀ hst).mp hc
      push_cast at this ⊢
      linarith
    rw [hfq]
    push_cast at hc2 ⊢
    linarith
  refine ⟨?_, ?_, ?_, ?_⟩
  · intro hp
    show (if (searchGo pool mr xr mt st (searchFuel init mt st) init).1 = [] ∧ pool ≠ []
        then pool.take xr else (searchGo pool mr xr mt st (searchFuel init mt st) init).1) = _
    rw [hgo, if_neg (fun h => h.2 hp)]
  · intro hp
    show (if (searchGo pool mr xr mt st (searchFuel init mt st) init).1 = [] ∧ pool ≠ []
        then pool.take xr else (searchGo pool mr xr mt st (searchFuel init mt st) init).1) = _
    rw [hgo, if_pos ⟨rfl, hp⟩]
  · show (searchGo pool mr xr mt st (searchFuel init mt st) init).2.1 = _
    rw [hgo]
  · show (searchGo pool mr xr mt st (searchFuel init mt st) init).2.1 < mt
    rw [hgo]
    exact hlast

theorem searchGo_attempted_le (pool : List Candidate) (mr xr : Nat) (mt st : ℚ) :
    ∀ (fuel : Nat) (cur : ℚ), (searchGo pool mr xr mt st fuel cur).2.2.length ≤ fuel := by
  intro fuel
  induction fuel with
  | zero =>
    intro cur
    exact Nat.le_refl 0
  | succ n ih =>
    intro cur
    rw [searchGo_succ]
    split_ifs with h1 h2
    · simp
    · simp
    · simp only [List.length_cons]
      exact Nat.succ_le_succ (ih (cur - st))

theorem searchGo_attempted_range (pool : List Candidate) (mr xr : Nat) (mt st : ℚ)
    (hst : 0 ≤ st) :
    ∀ (fuel : Nat) (cur : ℚ), ∀ t ∈ (searchGo pool mr xr mt st fuel cur).2.2,
      mt ≤ t ∧ t ≤ cur := by
  intro fuel
  induction fuel with
  | zero =>
    intro cur t ht
    exact absurd ht (List.not_mem_nil t)
  | succ n ih =>
    intro cur t ht
    rw [searchGo_succ] at ht
    split_ifs at ht with h1 h2
    · exact absurd ht (List.not_mem_nil t)
    · obtain rfl := List.mem_singleton.mp ht
      exact ⟨not_lt.mp h1, le_refl _⟩
    · rw [List.mem_cons] at ht
      rcases ht with rfl | ht
      · exact ⟨not_lt.mp h1, le_refl _⟩
      · have h := ih (cur - st) t ht
        exact ⟨h.1, le_trans h.2 (by linarith)⟩

/-- C5: for every candidate pool sorted by descending similarity and
parameters satisfying the preconditions, if `t = initial_threshold - k *
threshold_step` is the first attempted value that is still ≥ `min_threshold`
and admits at least `min_results` candidates with similarity ≥ t, the search
returns exactly the first `max_results` such candidates in the pool's
original (descending-similarity, stable) order — the stable filter truncated
to `max_results` — with `final_threshold = t`. -/
theorem adaptive_search_first_success (pool : List Candidate) (init mt st : ℚ)
    (mr xr k : Nat)
    (hsorted : pool.Chain' (fun a b => b.similarity ≤ a.similarity))
    (h0m : 0 ≤ mt) (hmi : mt ≤ init) (hi1 : init ≤ 1)
    (hst : 0 < st) (hmr : 1 ≤ mr) (hxr : mr ≤ xr)
    (hfail : ∀ j : Nat, j < k → (thresholdFilter pool (init - j * st)).length < mr)
    (hk : mt ≤ init - k * st)
    (hcount : mr ≤ (thresholdFilter pool (init - k * st)).length) :
    (adaptive_search_notes pool init mt st mr xr).results =
        (thresholdFilter pool (init - k * st)).take xr ∧
    (adaptive_search_notes pool init mt st mr xr).final_threshold = init - k * st :=
  adaptive_search_hits pool init mt st mr xr k hst hmr hxr hfail hk hcount

theorem adaptive_search_first_success_witness :
    (adaptive_search_notes pool10 (8/10) (3/10) (1/10) 1 5).results =
        (thresholdFilter pool10 (8/10 - (0 : ℕ) * (1/10))).take 5 ∧
    (adaptive_search_notes pool10 (8/10) (3/10) (1/10) 1 5).final_threshold =
        8/10 - (0 : ℕ) * (1/10) :=
  adaptive_search_first_success pool10 (8/10) (3/10) (1/10) 1 5 0
    (by norm_num [pool10, List.chain'_cons, List.chain'_singleton])
    (by norm_num) (by norm_num) (by norm_num) (by norm_num) (by norm_num) (by norm_num)
    (fun j hj => absurd hj (by omega))
    (by norm_num)
    (by norm_num [thresholdFilter, pool10, List.filter])

/-- C9: the adaptive-threshold loop terminates (it is a total function of
its fuel) and performs at most `⌈(initial_threshold − min_threshold) /
threshold_step⌉ + 1` filter passes, each recorded in
`attempted_thresholds`, all over the same in-memory pool fetched once
before the loop; no attempted threshold is below `min_threshold` or above
`initial_threshold`. -/
theorem adaptive_search_pass_bound (pool : List Candidate) (init mt st : ℚ)
    (mr xr : Nat) (hst : 0 < st) (hmi : mt ≤ init) :
    (adaptive_search_notes pool init mt st mr xr).attempted_thresholds.length ≤
        (⌈(init - mt) / st⌉ + 1).toNat ∧
    ∀ t ∈ (adaptive_search_notes pool init mt st mr xr).attempted_thresholds,
      mt ≤ t ∧ t ≤ init := by
  constructor
  · have h1 := searchGo_attempted_le pool mr xr mt st (searchFuel init mt st) init
    have h2 : searchFuel init mt st ≤ (⌈(init - mt) / st⌉ + 1).toNat := by
      rw [searchFuel]
      exact Int.toNat_le_toNat (by have := Int.floor_le_ceil ((init - mt) / st); omega)
    exact le_trans h1 h2
  · intro t ht
    exact searchGo_attempted_range pool mr xr mt st (le_of_lt hst)
      (searchFuel init mt st) init t ht

theorem adaptive_search_pass_bound_witness :
    (0 : ℚ) < 1/10 ∧ (3/10 : ℚ) ≤ 8/10 ∧
    ((adaptive_search_notes pool10 (8/10) (3/10) (1/10) 1 5).attempted_thresholds.length ≤
        (⌈((8/10 : ℚ) - 3/10) / (1/10)⌉ + 1).toNat ∧
    ∀ t ∈ (adaptive_search_notes pool10 (8/10) (3/10) (1/10) 1 5).attempted_thresholds,
      (3/10 : ℚ) ≤ t ∧ t ≤ 8/10) :=
  ⟨by norm_num, by norm_num,
    adaptive_search_pass_bound pool10 (8/10) (3/10) (1/10) 1 5 (by norm_num) (by norm_num)⟩

/-- C6: with precondition-satisfying parameters, if no attempted threshold
yields `min_results` candidates, a non-empty pool falls back to its top
`max_results` candidates (a normal return, not an error), and an empty pool
returns an empty result set, also without error (the model is a total
function; the `except` clause of the source only catches database and
embedding-service failures, which are outside the pool-based model). -/
theorem adaptive_search_fallback_graceful (pool : List Candidate) (init mt st : ℚ)
    (mr xr : Nat) (hst : 0 < st) (hmi : mt ≤ init) (hmr : 1 ≤ mr) (hxr : mr ≤ xr) :
    (pool = [] → (adaptive_search_notes pool init mt st mr xr).results = []) ∧
    (pool ≠ [] →
      (∀ j : Nat, j < searchFuel init mt st →
        (thresholdFilter pool (init - j * st)).length < mr) →
      (adaptive_search_notes pool init mt st mr xr).results = pool.take xr) := by
  constructor
  · intro hp
    subst hp
    show (if (searchGo [] mr xr mt st (searchFuel init mt st) init).1 = [] ∧
        ([] : List Candidate) ≠ [] then List.take xr ([] : List Candidate)
        else (searchGo [] mr xr mt st (searchFuel init mt st) init).1) = []
    rw [if_neg (fun h => h.2 rfl)]
    exact searchGo_nil_pool mr xr mt st (searchFuel init mt st) init
  · intro hp hfail
    exact (adaptive_search_exhausts pool init mt st mr xr hst hmi hfail).2.1 hp

theorem adaptive_search_fallback_graceful_witness :
    (adaptive_search_notes pool2 (8/10) (3/10) (1/10) 5 5).results = pool2.take 5 ∧
    (adaptive_search_notes [] (8/10) (3/10) (1/10) 5 5).results = [] :=
  ⟨(adaptive_search_fallback_graceful pool2 (8/10) (3/10) (1/10) 5 5
      (by norm_num) (by norm_num) (by norm_num) (by norm_num)).2
      (by simp [pool2])
      (fun j hj => lt_of_le_of_lt (List.length_filter_le _ _)
        (by norm_num [pool2])),
   (adaptive_search_fallback_graceful [] (8/10) (3/10) (1/10) 5 5
      (by norm_num) (by norm_num) (by norm_num) (by norm_num)).1 rfl⟩

/-- Cast of the loop fuel back to ℚ when the threshold interval is
non-degenerate. -/
theorem searchFuel_cast (init mt st : ℚ) (hst : 0 < st) (hmi : mt ≤ init) :
    ((searchFuel init mt st : ℕ) : ℚ) = ((⌊(init - mt) / st⌋ : ℤ) : ℚ) + 1 := by
  have hm0 : 0 ≤ ⌊(init - mt) / st⌋ :=
    Int.floor_nonneg.mpr (div_nonneg (by linarith) (le_of_lt hst))
  rw [searchFuel]
  rw [show ((⌊(init - mt) / st⌋ + 1).toNat : ℚ) = (((⌊(init - mt) / st⌋ + 1).toNat : ℤ) : ℚ)
    from by push_cast; ring]
  rw [Int.toNat_of_nonneg (by omega)]
  push_cast
  ring

/-- C10: whenever the fallback branch is taken (every in-range threshold
failed, pool non-empty), the reported `final_threshold` is the first value
of the sequence `initial_threshold - k * threshold_step` lying strictly
below `min_threshold`: the loop variable is decremented once more before the
`while` condition fails, so the reported value is strictly less than
`min_threshold` even though no filtering was performed there. -/
theorem adaptive_search_fallback_final_threshold (pool : List Candidate)
    (init mt st : ℚ) (mr xr : Nat)
    (hst : 0 < st) (hmi : mt ≤ init) (hpool : pool ≠ [])
    (hfail : ∀ j : Nat, j < searchFuel init mt st →
      (thresholdFilter pool (init - j * st)).length < mr) :
    (adaptive_search_notes pool init mt st mr xr).final_threshold =
        init - (searchFuel init mt st : ℚ) * st ∧
    (adaptive_search_notes pool init mt st mr xr).final_threshold < mt ∧
    mt ≤ init - ((searchFuel init mt st : ℚ) - 1) * st := by
  have h := adaptive_search_exhausts pool init mt st mr xr hst hmi hfail
  refine ⟨h.2.2.1, h.2.2.2, ?_⟩
  have hfq := searchFuel_cast init mt st hst hmi
  rw [hfq]
  have h5 : ((⌊(init - mt) / st⌋ : ℤ) : ℚ) ≤ (init - mt) / st := Int.floor_le _
  have h6 := (le_div_iff₀ hst).mp h5
  have h7 : ((⌊(init - mt) / st⌋ : ℤ) : ℚ) + 1 - 1 = ((⌊(init - mt) / st⌋ : ℤ) : ℚ) := by ring
  rw [h7]
  linarith

theorem adaptive_search_fallback_final_threshold_witness :
    (adaptive_search_notes pool2 (8/10) (3/10) (1/10) 5 5).final_threshold =
        8/10 - (searchFuel (8/10) (3/10) (1/10) : ℚ) * (1/10) ∧
    (adaptive_search_notes pool2 (8/10) (3/10) (1/10) 5 5).final_threshold < 3/10 ∧
    (3/10 : ℚ) ≤ 8/10 - ((searchFuel (8/10) (3/10) (1/10) : ℚ) - 1) * (1/10) :=
  adaptive_search_fallback_final_threshold pool2 (8/10) (3/10) (1/10) 5 5
    (by norm_num) (by norm_num) (by simp [pool2])
    (fun j hj => lt_of_le_of_lt (List.length_filter_le _ _) (by norm_num [pool2]))

/-- C2 (counterexample): on the synthetic pool with `initial_threshold =
0.8`, `min_threshold = 0.3`, `threshold_step = 0.1`, `min_results =
max_results = 5`, the loop already succeeds at its second attempt: 6
candidates have similarity ≥ 0.7 ≥ 5 = `min_results`, so the reported
`final_threshold` is 0.7 and never reaches the claimed 0.6. -/
theorem adaptive_search_relaxation_cex :
    (adaptive_search_notes pool10 (8/10) (3/10) (1/10) 5 5).final_threshold ≠ 6/10 := by
  have h := adaptive_search_hits pool10 (8/10) (3/10) (1/10) 5 5 1
    (by norm_num) (by norm_num) (by norm_num)
    (by
      intro j hj
      have hj0 : j = 0 := by omega
      subst hj0
      norm_num [thresholdFilter, pool10, List.filter])
    (by norm_num)
    (by norm_num [thresholdFilter, pool10, List.filter])
  rw [h.2]
  norm_num

/-- C2 (amended): on the synthetic pool with `initial_threshold = 0.8`,
`min_threshold = 0.3`, `threshold_step = 0.1`, `min_results = max_results =
5`, the search relaxes one step to `final_threshold = 0.7` (6 candidates ≥
0.7, truncated to `max_results`) and returns exactly the 5 best candidates. -/
theorem adaptive_search_relaxation_amended :
    (adaptive_search_notes pool10 (8/10) (3/10) (1/10) 5 5).final_threshold = 7/10 ∧
    (adaptive_search_notes pool10 (8/10) (3/10) (1/10) 5 5).results =
      [⟨1, 95/100⟩, ⟨2, 90/100⟩, ⟨3, 85/100⟩, ⟨4, 80/100⟩, ⟨5, 75/100⟩] := by
  have h := adaptive_search_hits pool10 (8/10) (3/10) (1/10) 5 5 1
    (by norm_num) (by norm_num) (by norm_num)
    (by
      intro j hj
      have hj0 : j = 0 := by omega
      subst hj0
      norm_num [thresholdFilter, pool10, List.filter])
    (by norm_num)
    (by norm_num [thresholdFilter, pool10, List.filter])
  constructor
  · rw [h.2]
    norm_num
  · rw [h.1]
    norm_num [thresholdFilter, pool10, List.filter, List.take_succ_cons, List.take_zero]

theorem processContentChunks_notes {α : Type} (tok : Tokenizer α)
    (embedFn : String → List ℚ) (note_id : Nat) :
    ∀ (chunks : List String) (st : DbState) (i : Nat),
      (processContentChunks tok embedFn note_id st i chunks).notes = st.notes := by
  intro chunks
  induction chunks with
  | nil =>
    intro st i
    rfl
  | cons c rest ih =>
    intro st i
    by_cases hc : c = ""
    · have hg : generate_embedding embedFn c = none := by simp [generate_embedding, hc]
      simp only [processContentChunks, hg]
      exact ih st (i + 1)
    · have hg : generate_embedding embedFn c = some (embedFn c) := by
        simp [generate_embedding, hc]
      simp only [processContentChunks, hg]
      rw [ih]
      rfl

theorem processContentChunks_length {α : Type} (tok : Tokenizer α)
    (embedFn : String → List ℚ) (note_id : Nat) :
    ∀ (chunks : List String) (st : DbState) (i : Nat),
      (processContentChunks tok embedFn note_id st i chunks).note_embeddings.length =
        st.note_embeddings.length + (chunks.filter (fun c => c ≠ "")).length := by
  intro chunks
  induction chunks with
  | nil =>
    intro st i
    simp [processContentChunks]
  | cons c rest ih =>
    intro st i
    by_cases hc : c = ""
    · have hg : generate_embedding embedFn c = none := by simp [generate_embedding, hc]
      simp only [processContentChunks, hg]
      rw [ih]
      simp [hc]
    · have hg : generate_embedding embedFn c = some (embedFn c) := by
        simp [generate_embedding, hc]
      simp only [processContentChunks, hg]
      rw [ih]
      have hins : (insertChunkRow st note_id "content" c (i + 1) (count_words c)
          (count_characters c) (count_tokens tok c)).note_embeddings.length =
          st.note_embeddings.length + 1 := by
        simp [insertChunkRow]
      rw [hins]
      rw [List.filter_cons_of_pos (by simp [hc])]
      simp only [List.length_cons]
      omega

theorem process_title_notes {α : Type} (tok : Tokenizer α) (embedFn : String → List ℚ)
    (st : DbState) (note_id : Nat) (title : String) :
    (process_title tok embedFn st note_id title).notes = st.notes := by
  rw [process_title]
  split_ifs with h
  · rfl
  · cases hge : generate_embedding embedFn title <;> rfl

theorem process_title_length {α : Type} (tok : Tokenizer α) (embedFn : String → List ℚ)
    (st : DbState) (note_id : Nat) (title : String) :
    (process_title tok embedFn st note_id title).note_embeddings.length =
      st.note_embeddings.length + (if title = "" then 0 else 1) := by
  rw [process_title]
  split_ifs with h
  · simp
  · have hg : generate_embedding embedFn title = some (embedFn title) := by
      simp [generate_embedding, h]
    rw [hg]
    simp [insertChunkRow]

theorem process_content_notes {α : Type} (tok : Tokenizer α) (embedFn : String → List ℚ)
    (st : DbState) (note_id : Nat) (content : String) :
    (process_content tok embedFn st note_id content).notes = st.notes := by
  rw [process_content]
  split_ifs with h
  · rfl
  · cases hc : chunk_text_by_tokens tok content 1000 with
    | none => rfl
    | some chunks => exact processContentChunks_notes tok embedFn note_id chunks st 0

theorem process_content_length {α : Type} (tok : Tokenizer α) (embedFn : String → List ℚ)
    (st : DbState) (note_id : Nat) (content : String) :
    (process_content tok embedFn st note_id content).note_embeddings.length =
      st.note_embeddings.length + contentRowCount tok content := by
  rw [process_content, contentRowCount]
  split_ifs with h
  · rfl
  · cases hc : chunk_text_by_tokens tok content 1000 with
    | none => rfl
    | some chunks => exact processContentChunks_length tok embedFn note_id chunks st 0

theorem upsertNote_find_isSome (notes : List NoteRow) (fp t c : String)
    (props : Option String) (meta : String) :
    ((upsertNote notes fp t c props meta).find? (fun r => r.file_path = fp)).isSome := by
  rw [upsertNote]
  split_ifs with h
  · rw [List.find?_isSome]
    rw [List.any_eq_true] at h
    obtain ⟨r, hr, hp⟩ := h
    refine ⟨if r.file_path = fp then { r with
      title := t
      content := c
      properties := props
      path_metadata := meta } else r, List.mem_map_of_mem _ hr, ?_⟩
    rw [decide_eq_true_eq] at hp
    rw [if_pos hp]
    simpa using hp
  · rw [List.find?_isSome]
    refine ⟨{ id := notes.length
              file_path := fp
              title := t
              content := c
              properties := props
              path_metadata := meta }, ?_, by simp⟩
    simp

theorem ingestDocument_notes {α : Type} (tok : Tokenizer α) (embedFn : String → List ℚ)
    (st : DbState) (fp t c : String) (props : Option String) (meta : String) :
    (ingestDocument tok embedFn st fp t c props meta).notes =
      upsertNote st.notes fp t c props meta := by
  rw [ingestDocument]
  cases hf : (upsertNote st.notes fp t c props meta).find? (fun r => r.file_path = fp) with
  | none => rfl
  | some row =>
    show (process_content tok embedFn
      (process_title tok embedFn { st with notes := upsertNote st.notes fp t c props meta }
        row.id t) row.id c).notes = _
    rw [process_content_notes, process_title_notes]

theorem ingestDocument_length {α : Type} (tok : Tokenizer α) (embedFn : String → List ℚ)
    (st : DbState) (fp t c : String) (props : Option String) (meta : String) :
    (ingestDocument tok embedFn st fp t c props meta).note_embeddings.length =
      st.note_embeddings.length + ((if t = "" then 0 else 1) + contentRowCount tok c) := by
  rw [ingestDocument]
  cases hf : (upsertNote st.notes fp t c props meta).find? (fun r => r.file_path = fp) with
  | none =>
    exfalso
    have := upsertNote_find_isSome st.notes fp t c props meta
    rw [hf] at this
    exact Bool.noConfusion this
  | some row =>
    show (process_content tok embedFn
      (process_title tok embedFn { st with notes := upsertNote st.notes fp t c props meta }
        row.id t) row.id c).note_embeddings.length = _
    rw [process_content_length, process_title_length]
    show st.note_embeddings.length + _ + _ = _
    omega

/-- C4 (counterexample): ingesting the same unchanged document ("note.md",
title "T", content "hello") twice from an empty database does NOT leave the
chunk set unchanged — the chunk inserts have no conflict clause or delete,
so the second run appends a second copy of the title row and of every
content row: 2 rows after the first run, 4 after the second. -/
theorem ingest_twice_duplicates_chunks_cex :
    (ingestDocument charTokenizer (fun _ => [1]) emptyDb "note.md" "T" "hello" none
      "{}").note_embeddings.length = 2 ∧
    (ingestDocument charTokenizer (fun _ => [1])
      (ingestDocument charTokenizer (fun _ => [1]) emptyDb "note.md" "T" "hello" none "{}")
      "note.md" "T" "hello" none "{}").note_embeddings.length = 4 ∧
    (ingestDocument charTokenizer (fun _ => [1])
        (ingestDocument charTokenizer (fun _ => [1]) emptyDb "note.md" "T" "hello" none "{}")
        "note.md" "T" "hello" none "{}").note_embeddings ≠
      (ingestDocument charTokenizer (fun _ => [1]) emptyDb "note.md" "T" "hello" none
        "{}").note_embeddings := by
  have e1 : (ingestDocument charTokenizer (fun _ => [1]) emptyDb "note.md" "T" "hello" none
      "{}").note_embeddings.length = 2 := by decide
  have e2 : (ingestDocument charTokenizer (fun _ => [1])
      (ingestDocument charTokenizer (fun _ => [1]) emptyDb "note.md" "T" "hello" none "{}")
      "note.md" "T" "hello" none "{}").note_embeddings.length = 4 := by decide
  refine ⟨e1, e2, ?_⟩
  intro h
  have hlen := congrArg List.length h
  rw [e1, e2] at hlen
  omega

/-- C4 (amended): ingesting the same unchanged document twice leaves exactly
one Document row for its path (the `ON CONFLICT (file_path) DO UPDATE`
upsert updates in place, and an unchanged document updates it to itself),
but the chunk rows are plain inserts: the second run appends a fresh copy of
the whole batch, so the stored chunk-row count doubles instead of staying
the same. -/
theorem ingest_twice_one_note_row_chunks_doubled {α : Type} (tok : Tokenizer α)
    (embedFn : String → List ℚ) (fp t c : String) (props : Option String) (meta : String) :
    ((ingestDocument tok embedFn
        (ingestDocument tok embedFn emptyDb fp t c props meta)
        fp t c props meta).notes.filter (fun r => r.file_path = fp)).length = 1 ∧
    (ingestDocument tok embedFn
        (ingestDocument tok embedFn emptyDb fp t c props meta)
        fp t c props meta).notes =
      (ingestDocument tok embedFn emptyDb fp t c props meta).notes ∧
    (ingestDocument tok embedFn
        (ingestDocument tok embedFn emptyDb fp t c props meta)
        fp t c props meta).note_embeddings.length =
      2 * (ingestDocument tok embedFn emptyDb fp t c props meta).note_embeddings.length := by
  have hrow : upsertNote ([] : List NoteRow) fp t c props meta =
      [⟨0, fp, t, c, props, meta⟩] := by
    simp [upsertNote]
  have hrow2 : upsertNote [(⟨0, fp, t, c, props, meta⟩ : NoteRow)] fp t c props meta =
      [⟨0, fp, t, c, props, meta⟩] := by
    simp [upsertNote]
  have h1 : (ingestDocument tok embedFn emptyDb fp t c props meta).notes =
      [⟨0, fp, t, c, props, meta⟩] := by
    rw [ingestDocument_notes]
    exact hrow
  have h2 : (ingestDocument tok embedFn
      (ingestDocument tok embedFn emptyDb fp t c props meta) fp t c props meta).notes =
      [⟨0, fp, t, c, props, meta⟩] := by
    rw [ingestDocument_notes, h1]
    exact hrow2
  have hl1 : (ingestDocument tok embedFn emptyDb fp t c props meta).note_embeddings.length =
      (if t = "" then 0 else 1) + contentRowCount tok c := by
    rw [ingestDocument_length]
    simp [emptyDb]
  have hl2 : (ingestDocument tok embedFn
      (ingestDocument tok embedFn emptyDb fp t c props meta)
      fp t c props meta).note_embeddings.length =
      (ingestDocument tok embedFn emptyDb fp t c props meta).note_embeddings.length +
        ((if t = "" then 0 else 1) + contentRowCount tok c) :=
    ingestDocument_length tok embedFn _ fp t c props meta
  refine ⟨?_, ?_, ?_⟩
  · rw [h2]
    simp
  · rw [h2, h1]
  · omega
